import Mathlib

/-
Verification of the scale configuration model of `bqplot/scales.py`.

The source file declares a hierarchy of widget classes (`Scale`,
`LinearScale`, `LogScale`, `DateScale`, `OrdinalScale`, `ColorScale`,
`DateColorScale`, `OrdinalColorScale`), each a set of traitlets
declarations: a field name, a trait type (`Unicode`, `Float`, `Bool`,
`List`, `Enum`, `Date`, `Type`), a default value, a `sync` flag and an
`allow_none` flag.  The embedding below translates those declarations
verbatim into per-class tables, mirrors Python attribute resolution for
the two inheritance steps, and models the specification's operations
(`defaults`, `construct`, `update`, `serialize`) over those tables.
-/

namespace BqScales

/-- The values taken by the traitlets `Type` trait `domain_class`:
`Float` (traitlets) or `Date` (`bqplot.traits`), per `scales.py` lines 58
and 129. -/
inductive DomainClass
| float
| date
deriving DecidableEq, Repr

/-- Elements of list-valued fields (`domain`, `colors`).  The source's
`List` trait validates only that the value is a list, not its elements;
the elements occurring in this file are scalars (strings, numbers). -/
inductive Prim
| str (s : String)
| bool (b : Bool)
| num (x : Int)
| date (d : Int)
deriving DecidableEq, Repr

/-- Runtime values held by scale fields.  Python floats are idealized as
integers: no claim performs arithmetic on them, values only pass through
construction, update and serialization.  `Value.none` is Python's `None`,
the unset state of an optional field. -/
inductive Value
| none
| str (s : String)
| bool (b : Bool)
| num (x : Int)
| date (d : Int)
| list (l : List Prim)
| typ (t : DomainClass)
deriving DecidableEq, Repr

/-- The trait types used in `scales.py`: `Type` (with its class
parameter, `Type(Float)` or `Type(Date)`), `Bool`, `Unicode`, `Float`,
`Date`, `List` and `Enum` (with its allowed values). -/
inductive TraitType
| typeT (klass : DomainClass)
| boolT
| unicodeT
| floatT
| dateT
| listT
| enumT (allowed : List String)
deriving DecidableEq, Repr

/-- One traitlets declaration: field name, trait type, default value,
`sync` flag and `allow_none` flag, exactly as written in the source. -/
structure Trait where
  name : String
  ttype : TraitType
  default : Value
  sync : Bool
  allowNone : Bool
deriving DecidableEq, Repr

/-- The seven concrete scale variants declared in `scales.py`. -/
inductive Variant
| linearScale
| logScale
| dateScale
| ordinalScale
| colorScale
| dateColorScale
| ordinalColorScale
deriving DecidableEq, Repr

/-- Trait declarations of the base class `Scale` (`scales.py` lines
58-62).  `domain_class = Type(Float, sync=False)` is the only
non-synchronized trait in the file. -/
def scaleTraits : List Trait :=
  [⟨"domain_class", TraitType.typeT DomainClass.float, Value.typ DomainClass.float,
     false, false⟩,
   ⟨"reverse", TraitType.boolT, Value.bool false, true, false⟩,
   ⟨"allow_padding", TraitType.boolT, Value.bool true, true, false⟩,
   ⟨"_view_name", TraitType.unicodeT, Value.str "Scale", true, false⟩,
   ⟨"_model_name", TraitType.unicodeT, Value.str "ScaleModel", true, false⟩]

/-- Python attribute resolution for one inheritance step: a declaration
in the subclass shadows the inherited declaration of the same name; new
names are appended in declaration order. -/
def override (base child : List Trait) : List Trait :=
  base.map (fun t => (child.find? (fun u => u.name = t.name)).getD t)
    ++ child.filter (fun u => (base.find? (fun t => t.name = u.name)).isNone)

/-- Own declarations of `LinearScale` (`scales.py` lines 82-86). -/
def linearScaleOwn : List Trait :=
  [⟨"min", TraitType.floatT, Value.none, true, true⟩,
   ⟨"max", TraitType.floatT, Value.none, true, true⟩,
   ⟨"scale_range_type", TraitType.unicodeT, Value.str "numerical", true, false⟩,
   ⟨"_view_name", TraitType.unicodeT, Value.str "LinearScale", true, false⟩,
   ⟨"_model_name", TraitType.unicodeT, Value.str "LinearScaleModel", true, false⟩]

/-- Own declarations of `LogScale` (`scales.py` lines 105-109). -/
def logScaleOwn : List Trait :=
  [⟨"min", TraitType.floatT, Value.none, true, true⟩,
   ⟨"max", TraitType.floatT, Value.none, true, true⟩,
   ⟨"scale_range_type", TraitType.unicodeT, Value.str "numerical", true, false⟩,
   ⟨"_view_name", TraitType.unicodeT, Value.str "LogScale", true, false⟩,
   ⟨"_model_name", TraitType.unicodeT, Value.str "LogScaleModel", true, false⟩]

/-- Own declarations of `DateScale` (`scales.py` lines 129-135),
including the `domain_class = Type(Date, sync=False)` shadow. -/
def dateScaleOwn : List Trait :=
  [⟨"domain_class", TraitType.typeT DomainClass.date, Value.typ DomainClass.date,
     false, false⟩,
   ⟨"min", TraitType.dateT, Value.none, true, true⟩,
   ⟨"max", TraitType.dateT, Value.none, true, true⟩,
   ⟨"date_format", TraitType.unicodeT, Value.str "", true, false⟩,
   ⟨"scale_range_type", TraitType.unicodeT, Value.str "numerical", true, false⟩,
   ⟨"_view_name", TraitType.unicodeT, Value.str "DateScale", true, false⟩,
   ⟨"_model_name", TraitType.unicodeT, Value.str "DateScaleModel", true, false⟩]

/-- Own declarations of `OrdinalScale` (`scales.py` lines 152-155). -/
def ordinalScaleOwn : List Trait :=
  [⟨"domain", TraitType.listT, Value.list [], true, false⟩,
   ⟨"scale_range_type", TraitType.unicodeT, Value.str "numerical", true, false⟩,
   ⟨"_view_name", TraitType.unicodeT, Value.str "OrdinalScale", true, false⟩,
   ⟨"_model_name", TraitType.unicodeT, Value.str "OrdinalScaleModel", true, false⟩]

/-- Own declarations of `ColorScale` (`scales.py` lines 176-184). -/
def colorScaleOwn : List Trait :=
  [⟨"scale_type", TraitType.enumT ["linear"], Value.str "linear", true, false⟩,
   ⟨"colors", TraitType.listT, Value.list [], true, false⟩,
   ⟨"min", TraitType.floatT, Value.none, true, true⟩,
   ⟨"max", TraitType.floatT, Value.none, true, true⟩,
   ⟨"mid", TraitType.floatT, Value.none, true, true⟩,
   ⟨"scheme", TraitType.unicodeT, Value.str "RdYlGn", true, false⟩,
   ⟨"scale_range_type", TraitType.unicodeT, Value.str "Color", true, false⟩,
   ⟨"_view_name", TraitType.unicodeT, Value.str "LinearColorScale", true, false⟩,
   ⟨"_model_name", TraitType.unicodeT, Value.str "LinearColorScaleModel", true, false⟩]

/-- Own declarations of `DateColorScale` (`scales.py` lines 203-209):
`min`/`max` become `Date` traits while `mid` becomes a `Unicode` trait. -/
def dateColorScaleOwn : List Trait :=
  [⟨"min", TraitType.dateT, Value.none, true, true⟩,
   ⟨"max", TraitType.dateT, Value.none, true, true⟩,
   ⟨"mid", TraitType.unicodeT, Value.none, true, true⟩,
   ⟨"date_format", TraitType.unicodeT, Value.str "", true, false⟩,
   ⟨"scale_range_type", TraitType.unicodeT, Value.str "Color", true, false⟩,
   ⟨"_view_name", TraitType.unicodeT, Value.str "DateColorScale", true, false⟩,
   ⟨"_model_name", TraitType.unicodeT, Value.str "DateColorScaleModel", true, false⟩]

/-- Own declarations of `OrdinalColorScale` (`scales.py` lines 226-229).
Note the source's `_model_name` is `OrdinalScaleModel`. -/
def ordinalColorScaleOwn : List Trait :=
  [⟨"domain", TraitType.listT, Value.list [], true, false⟩,
   ⟨"scale_range_type", TraitType.unicodeT, Value.str "Color", true, false⟩,
   ⟨"_view_name", TraitType.unicodeT, Value.str "OrdinalColorScale", true, false⟩,
   ⟨"_model_name", TraitType.unicodeT, Value.str "OrdinalScaleModel", true, false⟩]

/-- The full trait table of each concrete variant, obtained by resolving
its inheritance chain (`DateColorScale` and `OrdinalColorScale` inherit
through `ColorScale`, the rest directly from `Scale`). -/
def traits : Variant → List Trait
| Variant.linearScale => override scaleTraits linearScaleOwn
| Variant.logScale => override scaleTraits logScaleOwn
| Variant.dateScale => override scaleTraits dateScaleOwn
| Variant.ordinalScale => override scaleTraits ordinalScaleOwn
| Variant.colorScale => override scaleTraits colorScaleOwn
| Variant.dateColorScale => override (override scaleTraits colorScaleOwn) dateColorScaleOwn
| Variant.ordinalColorScale => override (override scaleTraits colorScaleOwn) ordinalColorScaleOwn

/-- Whether a value is acceptable for a trait type, following the
traitlets validators used in the source (`Float`, `Date`, `Unicode`,
`Bool`, `List`, `Enum` with its allowed set, `Type` with its class
parameter).  The `Type` trait validates `issubclass(value, klass)`;
the two classes occurring in the source (`Float` and `Date`) are
unrelated, so subclassing degenerates to equality here. -/
def checks : TraitType → Value → Bool
| TraitType.floatT, Value.num _ => true
| TraitType.dateT, Value.date _ => true
| TraitType.unicodeT, Value.str _ => true
| TraitType.boolT, Value.bool _ => true
| TraitType.listT, Value.list _ => true
| TraitType.enumT allowed, Value.str s => allowed.contains s
| TraitType.typeT k, Value.typ t => t == k
| _, _ => false

/-- A value is acceptable for a trait when it passes the trait type's
validator, or when it is `None` and the trait was declared with
`allow_none=True`. -/
def typeOk (t : Trait) (v : Value) : Bool :=
  (v == Value.none && t.allowNone) || checks t.ttype v

/-- The error taxonomy of the specification (section 7). -/
inductive Err
| unknownField
| invalidParameterKind
| invalidVariant
deriving DecidableEq, Repr

/-- A scale configuration: its variant, one entry per declared trait in
declaration order, and the clean/dirty synchronization flag. -/
structure Config where
  variant : Variant
  fields : List (String × Value)
  dirty : Bool
deriving DecidableEq, Repr

/-- Modelled from the spec: `defaults(variant)` returns the canonical
default value set for a variant; the defaults themselves are the source's
trait declarations. -/
def defaults (V : Variant) : Config :=
  ⟨V, (traits V).map (fun t => (t.name, t.default)), false⟩

/-- Assign a named field in a field table, leaving other entries
untouched. -/
def setField (fs : List (String × Value)) (f : String) (v : Value) :
    List (String × Value) :=
  fs.map (fun p => if p.1 = f then (f, v) else p)

/-- The value currently held by a named field. -/
def fieldValue (c : Config) (n : String) : Option Value :=
  (c.fields.find? (fun p => p.1 = n)).map (fun p => p.2)

/-- Modelled from the spec: `update(config, field, value)` mutates a
single named field, failing with `UnknownField` when the field is not
declared for the configuration's variant and with `InvalidParameterKind`
on a type mismatch; a successful update marks the configuration dirty.
The declared field set and the per-field types are the source's. -/
def update (c : Config) (f : String) (v : Value) : Except Err Config :=
  match (traits c.variant).find? (fun t => t.name = f) with
  | Option.none => Except.error Err.unknownField
  | Option.some t =>
    if typeOk t v then Except.ok ⟨c.variant, setField c.fields f v, true⟩
    else Except.error Err.invalidParameterKind

/-- Modelled from the spec: the configuration state a caller observes
after an `update` call.  The spec gives no partial-write behavior (the
type check precedes the single-field assignment), so a failed call
returns the prior state together with the error. -/
def updateSt (c : Config) (f : String) (v : Value) : Config × Option Err :=
  match update c f v with
  | Except.ok c2 => (c2, Option.none)
  | Except.error e => (c, Option.some e)

/-- Apply a parameter list to a configuration, field by field, stopping
at the first error. -/
def applyParams (c : Config) : List (String × Value) → Except Err Config
| [] => Except.ok c
| p :: rest =>
  match update c p.1 p.2 with
  | Except.ok c2 => applyParams c2 rest
  | Except.error e => Except.error e

/-- Modelled from the spec: `construct(variant, parameters)` produces a
configuration of the requested variant with defaults applied for unset
parameters, failing with `InvalidParameterKind` on a value that does not
match the declared type.  A freshly constructed configuration is clean. -/
def construct (V : Variant) (P : List (String × Value)) : Except Err Config :=
  match applyParams (defaults V) P with
  | Except.ok c => Except.ok ⟨c.variant, c.fields, false⟩
  | Except.error e => Except.error e

/-- Whether a field name is declared `sync=True` for a variant. -/
def isSyncName (V : Variant) (n : String) : Bool :=
  match (traits V).find? (fun t => t.name = n) with
  | Option.some t => t.sync
  | Option.none => false

/-- Modelled from the spec: `serialize(config)` produces the flat
field-name-to-value mapping of the synchronized fields, omitting fields
whose value is the unset optional `None`.  Which fields synchronize
(`sync=True`) is the source's. -/
def serialize (c : Config) : List (String × Value) :=
  c.fields.filter (fun p => !(p.2 == Value.none) && isSyncName c.variant p.1)

/-- Look a field up in a serialized mapping. -/
def serLookup (m : List (String × Value)) (n : String) : Option Value :=
  (m.find? (fun p => p.1 = n)).map (fun p => p.2)

/-- Well-formedness of a configuration: its field table has exactly the
declared trait names in declaration order and every value passes its
trait's validator. -/
def WF (c : Config) : Bool :=
  (c.fields.map Prod.fst == (traits c.variant).map Trait.name) &&
  c.fields.all (fun p =>
    match (traits c.variant).find? (fun t => t.name = p.1) with
    | Option.some t => typeOk t p.2
    | Option.none => false)

/-- Run a fallible result against a boolean check, to state concrete
facts about `Except` values without an equality instance. -/
def okAnd (r : Except Err Config) (p : Config → Bool) : Bool :=
  match r with
  | Except.ok c => p c
  | Except.error _ => false

/-- The last value a parameter list assigns to a name, over a base. -/
def resolve (L : List (String × Value)) (n : String) (base : Option Value) :
    Option Value :=
  L.foldl (fun acc p => if p.1 = n then Option.some p.2 else acc) base

/-- Whether a value is a date value. -/
def isDateValue : Value → Bool
| Value.date _ => true
| _ => false

/-- Whether a value is the unset `None`. -/
def isNoneValue : Value → Bool
| Value.none => true
| _ => false

/-- Modelled from the spec: the fixed range-type tag per variant family,
"numerical" for the numerical scales and "Color" for the color scales;
stated for comparison against the serialized `scale_range_type` field. -/
def specRangeTag : Variant → String
| Variant.colorScale => "Color"
| Variant.dateColorScale => "Color"
| Variant.ordinalColorScale => "Color"
| _ => "numerical"

/-- A concrete linear-scale configuration (the result of constructing a
`LinearScale` with `min = 0`), used as a round-trip witness input. -/
def linMinZero : Config :=
  ⟨Variant.linearScale,
   [("domain_class", Value.typ DomainClass.float),
    ("reverse", Value.bool false),
    ("allow_padding", Value.bool true),
    ("_view_name", Value.str "LinearScale"),
    ("_model_name", Value.str "LinearScaleModel"),
    ("min", Value.num 0),
    ("max", Value.none),
    ("scale_range_type", Value.str "numerical")], false⟩

theorem setField_nil (f : String) (v : Value) : setField [] f v = [] := rfl

theorem setField_cons (p : String × Value) (rest : List (String × Value))
    (f : String) (v : Value) :
    setField (p :: rest) f v =
      (if p.1 = f then (f, v) else p) :: setField rest f v := rfl

theorem resolve_cons (p : String × Value) (rest : List (String × Value))
    (n : String) (base : Option Value) :
    resolve (p :: rest) n base =
      resolve rest n (if p.1 = n then Option.some p.2 else base) := rfl

theorem setField_map_fst (fs : List (String × Value)) (f : String) (v : Value) :
    (setField fs f v).map Prod.fst = fs.map Prod.fst := by
  induction fs with
  | nil => rfl
  | cons p rest ih =>
    rw [setField_cons, List.map_cons, List.map_cons, ih]
    by_cases h : p.1 = f
    · rw [if_pos h]
      simp [h]
    · rw [if_neg h]

theorem find?_setField_ne (fs : List (String × Value)) (f : String) (v : Value)
    (n : String) (h : n ≠ f) :
    (setField fs f v).find? (fun p => p.1 = n) = fs.find? (fun p => p.1 = n) := by
  induction fs with
  | nil => rfl
  | cons p rest ih =>
    rw [setField_cons]
    by_cases hp : p.1 = f
    · rw [if_pos hp]
      rw [List.find?_cons_of_neg _ (by simp; exact fun hc => h hc.symm)]
      rw [List.find?_cons_of_neg _ (by simp [hp]; exact fun hc => h hc.symm)]
      exact ih
    · rw [if_neg hp]
      by_cases hn : p.1 = n
      · rw [List.find?_cons_of_pos _ (by simp [hn]),
            List.find?_cons_of_pos _ (by simp [hn])]
      · rw [List.find?_cons_of_neg _ (by simp [hn]),
            List.find?_cons_of_neg _ (by simp [hn])]
        exact ih

theorem find?_setField_eq (fs : List (String × Value)) (f : String) (v : Value)
    (h : (fs.find? (fun p => p.1 = f)).isSome) :
    (setField fs f v).find? (fun p => p.1 = f) = Option.some (f, v) := by
  induction fs with
  | nil => simp [List.find?] at h
  | cons p rest ih =>
    rw [setField_cons]
    by_cases hp : p.1 = f
    · rw [if_pos hp, List.find?_cons_of_pos _ (by simp)]
    · rw [if_neg hp, List.find?_cons_of_neg _ (by simp [hp])]
      rw [List.find?_cons_of_neg _ (by simp [hp])] at h
      exact ih h

theorem find?_fst_isSome (fs : List (String × Value)) (n : String) :
    (fs.find? (fun p => p.1 = n)).isSome = true ↔ n ∈ fs.map Prod.fst := by
  induction fs with
  | nil => simp [List.find?]
  | cons p rest ih =>
    by_cases hp : p.1 = n
    · rw [List.find?_cons_of_pos _ (by simp [hp])]
      simp [hp.symm]
    · rw [List.find?_cons_of_neg _ (by simp [hp])]
      rw [ih, List.map_cons, List.mem_cons]
      constructor
      · exact fun hm => Or.inr hm
      · rintro (hm | hm)
        · exact absurd hm.symm hp
        · exact hm

theorem find?_of_mem_nodup (fs : List (String × Value)) (n : String) (v : Value)
    (hnd : (fs.map Prod.fst).Nodup) (hm : (n, v) ∈ fs) :
    fs.find? (fun p => p.1 = n) = Option.some (n, v) := by
  induction fs with
  | nil => simp at hm
  | cons p rest ih =>
    simp only [List.map_cons, List.nodup_cons] at hnd
    rcases List.mem_cons.mp hm with h1 | h1
    · subst h1
      simp [List.find?_cons]
    · have hne : p.1 ≠ n := by
        intro hc
        exact hnd.1 (hc ▸ (List.mem_map.mpr ⟨(n, v), h1, rfl⟩))
      simp [List.find?_cons, hne]
      exact ih hnd.2 h1

theorem mem_of_fst_mem (fs : List (String × Value)) (n : String)
    (h : n ∈ fs.map Prod.fst) : ∃ v, (n, v) ∈ fs := by
  rcases List.mem_map.mp h with ⟨p, hp, hfst⟩
  exact ⟨p.2, by rw [← hfst]; exact hp⟩

theorem resolve_notin (L : List (String × Value)) (n : String) (base : Option Value)
    (h : ∀ p ∈ L, p.1 ≠ n) : resolve L n base = base := by
  induction L generalizing base with
  | nil => rfl
  | cons p rest ih =>
    rw [resolve_cons, if_neg (h p (List.mem_cons_self p rest))]
    exact ih base (fun q hq => h q (List.mem_cons_of_mem p hq))

theorem resolve_nodup (L : List (String × Value)) (n : String) (base : Option Value)
    (hnd : (L.map Prod.fst).Nodup) :
    resolve L n base =
      match L.find? (fun p => p.1 = n) with
      | Option.some p => Option.some p.2
      | Option.none => base := by
  induction L generalizing base with
  | nil => rfl
  | cons p rest ih =>
    simp only [List.map_cons, List.nodup_cons] at hnd
    by_cases hp : p.1 = n
    · have hrest : ∀ q ∈ rest, q.1 ≠ n := by
        intro q hq hc
        exact hnd.1 (hp ▸ hc ▸ (List.mem_map.mpr ⟨q, hq, rfl⟩))
      rw [resolve_cons, if_pos hp, List.find?_cons_of_pos _ (by simp [hp])]
      exact resolve_notin rest n _ hrest
    · rw [resolve_cons, if_neg hp, List.find?_cons_of_neg _ (by simp [hp])]
      exact ih base hnd.2

theorem fields_ext (fs gs : List (String × Value))
    (hn : fs.map Prod.fst = gs.map Prod.fst) (hnd : (fs.map Prod.fst).Nodup)
    (hv : ∀ n, (fs.find? (fun p => p.1 = n)).map (fun p => p.2)
             = (gs.find? (fun p => p.1 = n)).map (fun p => p.2)) :
    fs = gs := by
  induction fs generalizing gs with
  | nil =>
    cases gs with
    | nil => rfl
    | cons q gs2 => simp at hn
  | cons p fs2 ih =>
    cases gs with
    | nil => simp at hn
    | cons q gs2 =>
      simp only [List.map_cons, List.cons.injEq] at hn
      simp only [List.map_cons, List.nodup_cons] at hnd
      have hfst : p.1 = q.1 := hn.1
      have hval : p.2 = q.2 := by
        have hv1 := hv p.1
        rw [List.find?_cons_of_pos _ (by simp)] at hv1
        rw [List.find?_cons_of_pos _ (by simp [← hfst])] at hv1
        simpa using hv1
      have htl : fs2 = gs2 := by
        refine ih gs2 hn.2 hnd.2 ?_
        intro n
        by_cases hcn : n = p.1
        · have h1 : fs2.find? (fun r => r.1 = n) = Option.none := by
            rw [List.find?_eq_none]
            intro x hx
            simp only [decide_eq_true_eq]
            intro hc
            exact hnd.1 (List.mem_map.mpr ⟨x, hx, hc.trans hcn⟩)
          have h2 : gs2.find? (fun r => r.1 = n) = Option.none := by
            rw [List.find?_eq_none]
            intro x hx
            simp only [decide_eq_true_eq]
            intro hc
            refine hnd.1 ?_
            rw [hn.2]
            exact List.mem_map.mpr ⟨x, hx, hc.trans hcn⟩
          rw [h1, h2]
        · have hq : ¬ (q.1 = n) := by rw [← hfst]; exact fun hc => hcn hc.symm
          have hpn : ¬ (p.1 = n) := fun hc => hcn hc.symm
          have hv1 := hv n
          rw [List.find?_cons_of_neg _ (by simp [hpn]),
              List.find?_cons_of_neg _ (by simp [hq])] at hv1
          exact hv1
      have hpq : p = q := Prod.ext hfst hval
      rw [hpq, htl]

theorem setField_eq_map (fs : List (String × Value)) (f : String) (v : Value) :
    setField fs f v = fs.map (fun p => if p.1 = f then (f, v) else p) := rfl

theorem fieldValue_mk (V : Variant) (fs : List (String × Value)) (d : Bool)
    (n : String) :
    fieldValue ⟨V, fs, d⟩ n = (fs.find? (fun p => p.1 = n)).map (fun p => p.2) := rfl

theorem applyParams_nil (c : Config) : applyParams c [] = Except.ok c := rfl

theorem applyParams_cons (c : Config) (p : String × Value)
    (L : List (String × Value)) :
    applyParams c (p :: L) =
      match update c p.1 p.2 with
      | Except.ok c1 => applyParams c1 L
      | Except.error e => Except.error e := rfl

theorem update_ok_inv (c : Config) (f : String) (v : Value) (c2 : Config)
    (h : update c f v = Except.ok c2) :
    ∃ t, (traits c.variant).find? (fun u => u.name = f) = Option.some t ∧
      typeOk t v = true ∧ c2 = ⟨c.variant, setField c.fields f v, true⟩ := by
  unfold update at h
  split at h
  next hf => exact Except.noConfusion h
  next t hf =>
    split at h
    next ht =>
      simp only [Except.ok.injEq] at h
      exact ⟨t, hf, ht, h.symm⟩
    next ht => exact Except.noConfusion h

theorem update_ok_variant (c : Config) (f : String) (v : Value) (c2 : Config)
    (h : update c f v = Except.ok c2) : c2.variant = c.variant := by
  obtain ⟨t, _, _, hc2⟩ := update_ok_inv c f v c2 h
  rw [hc2]

theorem WF_names (c : Config) (h : WF c = true) :
    c.fields.map Prod.fst = (traits c.variant).map Trait.name := by
  unfold WF at h
  simp only [Bool.and_eq_true, beq_iff_eq] at h
  exact h.1

theorem WF_all (c : Config) (h : WF c = true) :
    ∀ p ∈ c.fields,
      (match (traits c.variant).find? (fun t => t.name = p.1) with
       | Option.some t => typeOk t p.2
       | Option.none => false) = true := by
  unfold WF at h
  simp only [Bool.and_eq_true, List.all_eq_true] at h
  exact h.2

theorem WF_typeOk (c : Config) (n : String) (v : Value) (h : WF c = true)
    (hm : (n, v) ∈ c.fields) :
    ∃ t, (traits c.variant).find? (fun u => u.name = n) = Option.some t ∧
      typeOk t v = true := by
  have h2 : (match (traits c.variant).find? (fun u => u.name = n) with
       | Option.some t => typeOk t v
       | Option.none => false) = true := WF_all c h (n, v) hm
  revert h2
  cases hf : (traits c.variant).find? (fun u => u.name = n) with
  | none => intro h2; exact absurd h2 (by simp)
  | some t => intro h2; exact ⟨t, rfl, h2⟩

theorem WF_update (c : Config) (f : String) (v : Value) (c2 : Config)
    (hwf : WF c = true) (h : update c f v = Except.ok c2) : WF c2 = true := by
  obtain ⟨t, hf, ht, hc2⟩ := update_ok_inv c f v c2 h
  subst hc2
  unfold WF
  simp only [Bool.and_eq_true, beq_iff_eq, List.all_eq_true]
  constructor
  · rw [setField_map_fst]
    exact WF_names c hwf
  · intro p hp
    rw [setField_eq_map] at hp
    rcases List.mem_map.mp hp with ⟨q, hq, hpq⟩
    by_cases hqf : q.1 = f
    · have hpfv : p = (f, v) := by rw [← hpq]; simp [hqf]
      rw [hpfv]
      show (match (traits c.variant).find? (fun u => u.name = f) with
            | Option.some t => typeOk t v
            | Option.none => false) = true
      rw [hf]
      exact ht
    · have hpv : p = q := by rw [← hpq]; simp [hqf]
      rw [hpv]
      exact WF_all c hwf q hq

theorem find?_isSome_congr (fs gs : List (String × Value)) (n : String)
    (h : fs.map Prod.fst = gs.map Prod.fst) :
    (fs.find? (fun p => p.1 = n)).isSome = (gs.find? (fun p => p.1 = n)).isSome := by
  by_cases hm : n ∈ gs.map Prod.fst
  · have h1 : (fs.find? (fun p => p.1 = n)).isSome = true :=
      (find?_fst_isSome fs n).mpr (by rw [h]; exact hm)
    have h2 : (gs.find? (fun p => p.1 = n)).isSome = true :=
      (find?_fst_isSome gs n).mpr hm
    rw [h1, h2]
  · have h1 : (fs.find? (fun p => p.1 = n)).isSome = false := by
      rw [Bool.eq_false_iff]
      intro hc
      exact hm (by rw [← h]; exact (find?_fst_isSome fs n).mp hc)
    have h2 : (gs.find? (fun p => p.1 = n)).isSome = false := by
      rw [Bool.eq_false_iff]
      intro hc
      exact hm ((find?_fst_isSome gs n).mp hc)
    rw [h1, h2]

theorem update_presence (c : Config) (f : String) (v : Value) (c2 : Config)
    (h : update c f v = Except.ok c2) (n : String) :
    (fieldValue c2 n).isSome = (fieldValue c n).isSome := by
  obtain ⟨t, hf, ht, hc2⟩ := update_ok_inv c f v c2 h
  subst hc2
  unfold fieldValue
  rw [Option.isSome_map', Option.isSome_map']
  exact find?_isSome_congr _ _ n (setField_map_fst c.fields f v)

theorem update_fieldValue_self (c : Config) (f : String) (v : Value) (c2 : Config)
    (h : update c f v = Except.ok c2) (hp : (fieldValue c f).isSome = true) :
    fieldValue c2 f = Option.some v := by
  obtain ⟨t, hf, ht, hc2⟩ := update_ok_inv c f v c2 h
  subst hc2
  have hsome : (c.fields.find? (fun p => p.1 = f)).isSome := by
    have h3 : (fieldValue c f).isSome =
        (c.fields.find? (fun p => p.1 = f)).isSome := Option.isSome_map'
    rw [← h3, hp]
  rw [fieldValue_mk, find?_setField_eq c.fields f v hsome]
  rfl

theorem update_fieldValue_other (c : Config) (f : String) (v : Value) (c2 : Config)
    (h : update c f v = Except.ok c2) (n : String) (hn : n ≠ f) :
    fieldValue c2 n = fieldValue c n := by
  obtain ⟨t, hf, ht, hc2⟩ := update_ok_inv c f v c2 h
  subst hc2
  rw [fieldValue_mk, find?_setField_ne c.fields f v n hn]
  rfl

theorem applyParams_ok_variant : ∀ (L : List (String × Value)) (c c2 : Config),
    applyParams c L = Except.ok c2 → c2.variant = c.variant := by
  intro L
  induction L with
  | nil =>
    intro c c2 h
    cases h
    rfl
  | cons p L ih =>
    intro c c2 h
    rw [applyParams_cons] at h
    revert h
    cases hu : update c p.1 p.2 with
    | ok c1 =>
      intro h
      exact (ih c1 c2 h).trans (update_ok_variant c p.1 p.2 c1 hu)
    | error e => intro h; exact Except.noConfusion h

theorem applyParams_WF : ∀ (L : List (String × Value)) (c c2 : Config),
    WF c = true → applyParams c L = Except.ok c2 → WF c2 = true := by
  intro L
  induction L with
  | nil =>
    intro c c2 hwf h
    cases h
    exact hwf
  | cons p L ih =>
    intro c c2 hwf h
    rw [applyParams_cons] at h
    revert h
    cases hu : update c p.1 p.2 with
    | ok c1 =>
      intro h
      exact ih c1 c2 (WF_update c p.1 p.2 c1 hwf hu) h
    | error e => intro h; exact Except.noConfusion h

theorem applyParams_fieldValue_notin : ∀ (L : List (String × Value)) (c c2 : Config)
    (n : String), (∀ p ∈ L, p.1 ≠ n) → applyParams c L = Except.ok c2 →
    fieldValue c2 n = fieldValue c n := by
  intro L
  induction L with
  | nil =>
    intro c c2 n _ h
    cases h
    rfl
  | cons p L ih =>
    intro c c2 n hne h
    rw [applyParams_cons] at h
    revert h
    cases hu : update c p.1 p.2 with
    | ok c1 =>
      intro h
      have h1 : fieldValue c2 n = fieldValue c1 n :=
        ih c1 c2 n (fun q hq => hne q (List.mem_cons_of_mem p hq)) h
      have h2 : fieldValue c1 n = fieldValue c n :=
        update_fieldValue_other c p.1 p.2 c1 hu n
          (fun hc => hne p (List.mem_cons_self p L) hc.symm)
      exact h1.trans h2
    | error e => intro h; exact Except.noConfusion h

theorem applyParams_resolve : ∀ (L : List (String × Value)) (c c2 : Config),
    applyParams c L = Except.ok c2 → ∀ n, (fieldValue c n).isSome = true →
    fieldValue c2 n = resolve L n (fieldValue c n) := by
  intro L
  induction L with
  | nil =>
    intro c c2 h n _
    cases h
    rfl
  | cons p L ih =>
    intro c c2 h n hpres
    rw [applyParams_cons] at h
    revert h
    cases hu : update c p.1 p.2 with
    | ok c1 =>
      intro h
      have hpres1 : (fieldValue c1 n).isSome = true := by
        rw [update_presence c p.1 p.2 c1 hu n]
        exact hpres
      rw [ih c1 c2 h n hpres1, resolve_cons]
      by_cases hpn : p.1 = n
      · rw [if_pos hpn]
        have : fieldValue c1 n = Option.some p.2 := by
          rw [← hpn]
          exact update_fieldValue_self c p.1 p.2 c1 hu (by rw [hpn]; exact hpres)
        rw [this]
      · rw [if_neg hpn]
        rw [update_fieldValue_other c p.1 p.2 c1 hu n (fun hc => hpn hc.symm)]
    | error e => intro h; exact Except.noConfusion h

theorem applyParams_ok_of_decl : ∀ (L : List (String × Value)) (c : Config),
    (∀ p ∈ L, ∃ t, (traits c.variant).find? (fun u => u.name = p.1) = Option.some t ∧
      typeOk t p.2 = true) → ∃ c2, applyParams c L = Except.ok c2 := by
  intro L
  induction L with
  | nil => intro c _; exact ⟨c, rfl⟩
  | cons p L ih =>
    intro c h
    obtain ⟨t, hf, ht⟩ := h p (List.mem_cons_self p L)
    have hu : update c p.1 p.2 =
        Except.ok ⟨c.variant, setField c.fields p.1 p.2, true⟩ := by
      unfold update
      rw [hf]
      exact if_pos ht
    obtain ⟨c2, h2⟩ := ih ⟨c.variant, setField c.fields p.1 p.2, true⟩
      (fun q hq => h q (List.mem_cons_of_mem p hq))
    refine ⟨c2, ?_⟩
    rw [applyParams_cons, hu]
    exact h2

theorem mem_serialize (c : Config) (p : String × Value) :
    p ∈ serialize c ↔
      p ∈ c.fields ∧ (!(p.2 == Value.none) && isSyncName c.variant p.1) = true :=
  List.mem_filter

theorem traits_names_nodup (V : Variant) : ((traits V).map Trait.name).Nodup := by
  cases V <;> decide

theorem WF_defaults (V : Variant) : WF (defaults V) = true := by
  cases V <;> decide

theorem allowNone_default_none (V : Variant) :
    ∀ t ∈ traits V, t.allowNone = true → t.default = Value.none := by
  cases V <;> decide

theorem nonsync_name (V : Variant) :
    ∀ t ∈ traits V, t.sync = false → t.name = "domain_class" := by
  cases V <;> decide

theorem checks_none (tt : TraitType) : checks tt Value.none = false := by
  cases tt <;> rfl

theorem typeOk_none_allowNone (t : Trait) (h : typeOk t Value.none = true) :
    t.allowNone = true := by
  unfold typeOk at h
  rw [checks_none] at h
  simpa using h

theorem find?_eq_none_of_not_mem_fst (fs : List (String × Value)) (n : String)
    (h : n ∉ fs.map Prod.fst) : fs.find? (fun p => p.1 = n) = Option.none := by
  cases hfind : fs.find? (fun p => p.1 = n) with
  | none => rfl
  | some p =>
    exact absurd ((find?_fst_isSome fs n).mp (by rw [hfind]; rfl)) h

theorem fieldValue_defaults (V : Variant) (n : String) :
    fieldValue (defaults V) n =
      ((traits V).find? (fun t => t.name = n)).map (fun t => t.default) := by
  show (((traits V).map (fun t => (t.name, t.default))).find?
      (fun p => p.1 = n)).map (fun p => p.2) = _
  rw [List.find?_map (fun t => (t.name, t.default)) (traits V), Option.map_map]
  rfl

theorem reserialize (c : Config) (hwf : WF c = true) (hd : c.dirty = false)
    (hdc : fieldValue c "domain_class" =
      fieldValue (defaults c.variant) "domain_class") :
    construct c.variant (serialize c) = Except.ok c := by
  have hdecl : ∀ p ∈ serialize c, ∃ t,
      (traits (defaults c.variant).variant).find? (fun u => u.name = p.1)
        = Option.some t ∧ typeOk t p.2 = true := by
    intro p hp
    obtain ⟨n, v⟩ := p
    obtain ⟨hmem, _⟩ := (mem_serialize c (n, v)).mp hp
    obtain ⟨t, hf, ht⟩ := WF_typeOk c n v hwf hmem
    exact ⟨t, hf, ht⟩
  obtain ⟨c2, hap⟩ := applyParams_ok_of_decl (serialize c) (defaults c.variant) hdecl
  have hv2 : c2.variant = c.variant :=
    applyParams_ok_variant (serialize c) (defaults c.variant) c2 hap
  have hwf2 : WF c2 = true :=
    applyParams_WF (serialize c) (defaults c.variant) c2 (WF_defaults c.variant) hap
  have hnodupc : (c.fields.map Prod.fst).Nodup := by
    rw [WF_names c hwf]
    exact traits_names_nodup c.variant
  have hnodups : ((serialize c).map Prod.fst).Nodup :=
    hnodupc.sublist ((List.filter_sublist c.fields).map Prod.fst)
  have hpt : ∀ n, fieldValue c2 n = fieldValue c n := by
    intro n
    by_cases hmem : n ∈ (traits c.variant).map Trait.name
    · have hpres : (fieldValue (defaults c.variant) n).isSome = true := by
        unfold fieldValue
        rw [Option.isSome_map']
        refine (find?_fst_isSome _ n).mpr ?_
        rw [WF_names (defaults c.variant) (WF_defaults c.variant)]
        exact hmem
      have hres := applyParams_resolve (serialize c) (defaults c.variant) c2 hap n hpres
      rw [hres, resolve_nodup _ _ _ hnodups]
      cases hfind : (serialize c).find? (fun p => p.1 = n) with
      | some p =>
        obtain ⟨p1, p2⟩ := p
        have hpn : p1 = n := by
          have := List.find?_some hfind
          simpa using this
        subst hpn
        have hpmem : (p1, p2) ∈ serialize c := List.mem_of_find?_eq_some hfind
        obtain ⟨hmemf, _⟩ := (mem_serialize c (p1, p2)).mp hpmem
        have hfc : c.fields.find? (fun q => q.1 = p1) = Option.some (p1, p2) :=
          find?_of_mem_nodup c.fields p1 p2 hnodupc hmemf
        unfold fieldValue
        rw [hfc]
        rfl
      | none =>
        have hnone : ∀ q ∈ serialize c, ¬ (q.1 = n) := by
          intro q hq
          have := List.find?_eq_none.mp hfind q hq
          simpa using this
        obtain ⟨w, hw⟩ := mem_of_fst_mem c.fields n (by rw [WF_names c hwf]; exact hmem)
        have hnotser : (n, w) ∉ serialize c := fun hc => hnone (n, w) hc rfl
        have hpredfalse : (!(w == Value.none) && isSyncName c.variant n) = false := by
          by_cases hb : (!(w == Value.none) && isSyncName c.variant n) = true
          · exact absurd ((mem_serialize c (n, w)).mpr ⟨hw, hb⟩) hnotser
          · exact Bool.eq_false_iff.mpr hb
        obtain ⟨t, hf, ht⟩ := WF_typeOk c n w hwf hw
        have hmemt : t ∈ traits c.variant := List.mem_of_find?_eq_some hf
        have htn : t.name = n := by
          have := List.find?_some hf
          simpa using this
        have hfc : c.fields.find? (fun q => q.1 = n) = Option.some (n, w) :=
          find?_of_mem_nodup c.fields n w hnodupc hw
        show fieldValue (defaults c.variant) n = fieldValue c n
        by_cases hsy : isSyncName c.variant n = true
        · have hbn : (!(w == Value.none)) = false := by
            cases hx : (!(w == Value.none)) with
            | false => rfl
            | true => rw [hx, hsy] at hpredfalse; simp at hpredfalse
          have hwn : w = Value.none := by
            have : (w == Value.none) = true := by simpa using hbn
            simpa using this
          have hallow : t.allowNone = true :=
            typeOk_none_allowNone t (by rw [← hwn]; exact ht)
          have hdef : t.default = Value.none :=
            allowNone_default_none c.variant t hmemt hallow
          rw [fieldValue_defaults]
          have hftn : (traits c.variant).find? (fun t => t.name = n) = Option.some t := hf
          rw [hftn]
          unfold fieldValue
          rw [hfc, hwn]
          simp [hdef]
        · have hsyf : isSyncName c.variant n = false := Bool.eq_false_iff.mpr hsy
          have htsync : t.sync = false := by
            unfold isSyncName at hsyf
            rw [hf] at hsyf
            exact hsyf
          have hdcn : n = "domain_class" :=
            htn.symm.trans (nonsync_name c.variant t hmemt htsync)
          rw [hdcn] at *
          exact hdc.symm
    · have h1 : fieldValue c n = Option.none := by
        unfold fieldValue
        rw [find?_eq_none_of_not_mem_fst c.fields n
          (by rw [WF_names c hwf]; exact hmem)]
        rfl
      have h2 : fieldValue c2 n = Option.none := by
        unfold fieldValue
        rw [find?_eq_none_of_not_mem_fst c2.fields n
          (by rw [WF_names c2 hwf2, hv2]; exact hmem)]
        rfl
      rw [h1, h2]
  have hfields : c2.fields = c.fields := by
    refine fields_ext c2.fields c.fields ?_ ?_ ?_
    · rw [WF_names c2 hwf2, hv2, ← WF_names c hwf]
    · rw [WF_names c2 hwf2, hv2]
      exact traits_names_nodup c.variant
    · exact hpt
  unfold construct
  rw [hap]
  show Except.ok (⟨c2.variant, c2.fields, false⟩ : Config) = Except.ok c
  rw [hfields, hv2, ← hd]

theorem srt_trait (V : Variant) :
    ∃ t, (traits V).find? (fun u => u.name = "scale_range_type") = Option.some t ∧
      t.sync = true ∧ t.allowNone = false := by
  cases V <;> exact ⟨_, rfl, rfl, rfl⟩

theorem dc_trait (V : Variant) :
    ∃ k, (traits V).find? (fun u => u.name = "domain_class")
      = Option.some ⟨"domain_class", TraitType.typeT k, Value.typ k, false, false⟩ := by
  cases V <;> exact ⟨_, rfl⟩

theorem typeOk_typeT (k : DomainClass) (t : Trait) (v : Value)
    (hty : t.ttype = TraitType.typeT k) (han : t.allowNone = false)
    (h : typeOk t v = true) : v = Value.typ k := by
  unfold typeOk at h
  rw [hty, han] at h
  simp only [Bool.and_false, Bool.false_or] at h
  cases v with
  | typ t1 =>
    have : t1 = k := by simpa [checks] using h
    rw [this]
  | none => simp [checks] at h
  | str s => simp [checks] at h
  | bool b => simp [checks] at h
  | num x => simp [checks] at h
  | date d => simp [checks] at h
  | list l => simp [checks] at h

theorem domain_class_of_WF (c : Config) (hwf : WF c = true) :
    fieldValue c "domain_class" = fieldValue (defaults c.variant) "domain_class" := by
  obtain ⟨k, hf⟩ := dc_trait c.variant
  have hmemn : "domain_class" ∈ c.fields.map Prod.fst := by
    rw [WF_names c hwf]
    exact List.mem_map.mpr ⟨_, List.mem_of_find?_eq_some hf, rfl⟩
  obtain ⟨w, hw⟩ := mem_of_fst_mem c.fields _ hmemn
  obtain ⟨t2, hf2, ht2⟩ := WF_typeOk c _ w hwf hw
  have ht2e : t2 = ⟨"domain_class", TraitType.typeT k, Value.typ k, false, false⟩ := by
    rw [hf] at hf2
    exact (Option.some.inj hf2).symm
  have hwk : w = Value.typ k :=
    typeOk_typeT k t2 w (by rw [ht2e]) (by rw [ht2e]) ht2
  have hnodupc : (c.fields.map Prod.fst).Nodup := by
    rw [WF_names c hwf]
    exact traits_names_nodup c.variant
  have hfc := find?_of_mem_nodup c.fields _ w hnodupc hw
  rw [fieldValue_defaults, hf]
  unfold fieldValue
  rw [hfc, hwk]
  rfl

/-- Claim C1, counterexample: the `scale_range_type` tag is user-settable
after all — an `update` call on it succeeds and replaces the derived
default `"numerical"` of a fresh `LinearScale` with an arbitrary string. -/
theorem scale_range_type_update_accepted_cex :
    (update (defaults Variant.linearScale) "scale_range_type"
        (Value.str "Color")).map (fun c => fieldValue c "scale_range_type")
      = Except.ok (Option.some (Value.str "Color")) ∧
    serLookup (serialize (defaults Variant.linearScale)) "scale_range_type"
      = Option.some (Value.str "numerical") :=
  ⟨rfl, rfl⟩

/-- Claim C1, amended: for every variant, `defaults` followed by
`serialize` yields a `scale_range_type` equal to the variant family's
fixed tag ("numerical" for LinearScale, LogScale, DateScale and
OrdinalScale, "Color" for the three color variants); the tag is however
an ordinary declared string field — documented as not to be modified but
accepted by `update` like any other field. -/
theorem scale_range_type_default_tag_and_settable :
    (∀ V, serLookup (serialize (defaults V)) "scale_range_type"
        = Option.some (Value.str (specRangeTag V))) ∧
    (∀ V s, (update (defaults V) "scale_range_type" (Value.str s)).map
        (fun c => fieldValue c "scale_range_type")
      = Except.ok (Option.some (Value.str s))) := by
  constructor
  · intro V
    cases V <;> rfl
  · intro V s
    cases V <;> rfl

/-- Claim C2, counterexample: `OrdinalColorScale` breaks the pattern —
its view-kind tag is `"OrdinalColorScale"` but its model-kind tag is
`"OrdinalScaleModel"`, which is not the view tag with `"Model"`
appended. -/
theorem ordinal_color_model_tag_cex :
    serLookup (serialize (defaults Variant.ordinalColorScale)) "_view_name"
      = Option.some (Value.str "OrdinalColorScale") ∧
    serLookup (serialize (defaults Variant.ordinalColorScale)) "_model_name"
      = Option.some (Value.str "OrdinalScaleModel") ∧
    Option.some (Value.str ("OrdinalColorScale" ++ "Model"))
      ≠ serLookup (serialize (defaults Variant.ordinalColorScale)) "_model_name" := by
  refine ⟨rfl, rfl, ?_⟩
  decide

/-- Claim C2, amended: every variant exposes a stable `_view_name` /
`_model_name` pair; for LinearScale, LogScale, DateScale, OrdinalScale
and DateColorScale the view tag names the variant and the model tag is
the view tag with "Model" appended; ColorScale's view tag is
"LinearColorScale" (its model tag still appends "Model"); and
OrdinalColorScale's model tag is "OrdinalScaleModel", not its view tag
with "Model" appended. -/
theorem view_model_tag_table :
    serLookup (serialize (defaults Variant.linearScale)) "_view_name"
      = Option.some (Value.str "LinearScale") ∧
    serLookup (serialize (defaults Variant.linearScale)) "_model_name"
      = Option.some (Value.str ("LinearScale" ++ "Model")) ∧
    serLookup (serialize (defaults Variant.logScale)) "_view_name"
      = Option.some (Value.str "LogScale") ∧
    serLookup (serialize (defaults Variant.logScale)) "_model_name"
      = Option.some (Value.str ("LogScale" ++ "Model")) ∧
    serLookup (serialize (defaults Variant.dateScale)) "_view_name"
      = Option.some (Value.str "DateScale") ∧
    serLookup (serialize (defaults Variant.dateScale)) "_model_name"
      = Option.some (Value.str ("DateScale" ++ "Model")) ∧
    serLookup (serialize (defaults Variant.ordinalScale)) "_view_name"
      = Option.some (Value.str "OrdinalScale") ∧
    serLookup (serialize (defaults Variant.ordinalScale)) "_model_name"
      = Option.some (Value.str ("OrdinalScale" ++ "Model")) ∧
    serLookup (serialize (defaults Variant.colorScale)) "_view_name"
      = Option.some (Value.str "LinearColorScale") ∧
    serLookup (serialize (defaults Variant.colorScale)) "_model_name"
      = Option.some (Value.str ("LinearColorScale" ++ "Model")) ∧
    serLookup (serialize (defaults Variant.dateColorScale)) "_view_name"
      = Option.some (Value.str "DateColorScale") ∧
    serLookup (serialize (defaults Variant.dateColorScale)) "_model_name"
      = Option.some (Value.str ("DateColorScale" ++ "Model")) ∧
    serLookup (serialize (defaults Variant.ordinalColorScale)) "_view_name"
      = Option.some (Value.str "OrdinalColorScale") ∧
    serLookup (serialize (defaults Variant.ordinalColorScale)) "_model_name"
      = Option.some (Value.str "OrdinalScaleModel") := by
  decide

/-- Claim C3: updating a field name that is not declared for the
configuration's variant always fails with `UnknownField`, and the
configuration the caller retains is unchanged — every field still holds
its prior value. -/
theorem update_unknown_field (c : Config) (f : String) (v : Value)
    (h : ∀ t ∈ traits c.variant, t.name ≠ f) :
    updateSt c f v = (c, Option.some Err.unknownField) ∧
    ∀ n, fieldValue (updateSt c f v).1 n = fieldValue c n := by
  have hf : (traits c.variant).find? (fun u => u.name = f) = Option.none := by
    rw [List.find?_eq_none]
    intro t ht
    simpa using h t ht
  have hmain : updateSt c f v = (c, Option.some Err.unknownField) := by
    unfold updateSt update
    rw [hf]
  exact ⟨hmain, fun n => by rw [hmain]⟩

/-- Claim C3, witness: `min` is not declared for `OrdinalScale`, and the
failed update leaves the default configuration untouched. -/
theorem update_unknown_field_witness :
    (∀ t ∈ traits (defaults Variant.ordinalScale).variant, t.name ≠ "min") ∧
    updateSt (defaults Variant.ordinalScale) "min" (Value.num 1)
      = (defaults Variant.ordinalScale, Option.some Err.unknownField) :=
  ⟨by decide,
   (update_unknown_field (defaults Variant.ordinalScale) "min" (Value.num 1)
     (by decide)).1⟩

/-- Claim C4: every failing `update` is atomic — whenever the call
reports an error, the configuration the caller retains is exactly the
prior one (its dirty flag included), and the error is `UnknownField` or
`InvalidParameterKind`. -/
theorem update_failure_atomic (c : Config) (f : String) (v : Value) (e : Err)
    (h : (updateSt c f v).2 = Option.some e) :
    (updateSt c f v).1 = c ∧ (updateSt c f v).1.dirty = c.dirty ∧
    (e = Err.unknownField ∨ e = Err.invalidParameterKind) := by
  revert h
  unfold updateSt
  cases hu : update c f v with
  | ok c2 =>
    intro h
    exact Option.noConfusion h
  | error e2 =>
    intro h
    have he : e2 = e := by simpa using h
    refine ⟨rfl, rfl, ?_⟩
    revert hu
    unfold update
    cases hf : (traits c.variant).find? (fun u => u.name = f) with
    | none =>
      intro hu
      have h2 : Err.unknownField = e2 := by simpa using hu
      left
      rw [← he, ← h2]
    | some t =>
      intro hu
      have hu2 : (if typeOk t v = true then
          Except.ok (⟨c.variant, setField c.fields f v, true⟩ : Config)
        else Except.error Err.invalidParameterKind) = Except.error e2 := hu
      by_cases ht : typeOk t v = true
      · rw [if_pos ht] at hu2
        exact Except.noConfusion hu2
      · rw [if_neg ht] at hu2
        have h2 : Err.invalidParameterKind = e2 := by simpa using hu2
        right
        rw [← he, ← h2]

/-- Claim C4, witness: an `update` of `LinearScale.min` with a string
fails with `InvalidParameterKind` and leaves the configuration as it
was. -/
theorem update_failure_atomic_witness :
    (updateSt (defaults Variant.linearScale) "min" (Value.str "x")).2
      = Option.some Err.invalidParameterKind ∧
    (updateSt (defaults Variant.linearScale) "min" (Value.str "x")).1
      = defaults Variant.linearScale :=
  ⟨by decide,
   (update_failure_atomic (defaults Variant.linearScale) "min" (Value.str "x")
     Err.invalidParameterKind (by decide)).1⟩

/-- Claim C5: serialization of any well-formed configuration always
contains the `scale_range_type` tag and omits every field whose value is
the unset `None`; concretely, a `ColorScale` constructed with only
`colors` and `scheme` serializes with `scale_type = "linear"` and
`scale_range_type = "Color"` and without `min`, `max` or `mid`. -/
theorem serialize_contains_tag_omits_unset :
    (∀ c : Config, WF c = true →
      (∃ v, ("scale_range_type", v) ∈ serialize c) ∧
      (∀ n v, fieldValue c n = Option.some Value.none → (n, v) ∉ serialize c)) ∧
    ((construct Variant.colorScale
        [("colors", Value.list [Prim.str "red", Prim.str "green"]),
         ("scheme", Value.str "Viridis")]).map
      (fun c => (serLookup (serialize c) "scale_type",
                 serLookup (serialize c) "scale_range_type",
                 serLookup (serialize c) "colors",
                 serLookup (serialize c) "scheme",
                 serLookup (serialize c) "min",
                 serLookup (serialize c) "max",
                 serLookup (serialize c) "mid"))
      = Except.ok (Option.some (Value.str "linear"),
          Option.some (Value.str "Color"),
          Option.some (Value.list [Prim.str "red", Prim.str "green"]),
          Option.some (Value.str "Viridis"),
          Option.none, Option.none, Option.none)) := by
  constructor
  · intro c hwf
    have hnodupc : (c.fields.map Prod.fst).Nodup := by
      rw [WF_names c hwf]
      exact traits_names_nodup c.variant
    constructor
    · obtain ⟨t, hf, hsync, hnone⟩ := srt_trait c.variant
      have hmemn : "scale_range_type" ∈ c.fields.map Prod.fst := by
        rw [WF_names c hwf]
        refine List.mem_map.mpr ⟨t, List.mem_of_find?_eq_some hf, ?_⟩
        have := List.find?_some hf
        simpa using this
      obtain ⟨w, hw⟩ := mem_of_fst_mem c.fields _ hmemn
      obtain ⟨t2, hf2, ht2⟩ := WF_typeOk c _ w hwf hw
      have ht2t : t = t2 := by
        rw [hf] at hf2
        exact Option.some.inj hf2
      have hwn : (w == Value.none) = false := by
        by_cases hww : w = Value.none
        · exfalso
          have hall : t2.allowNone = true :=
            typeOk_none_allowNone t2 (by rw [← hww]; exact ht2)
          rw [← ht2t] at hall
          rw [hnone] at hall
          exact Bool.noConfusion hall
        · exact beq_eq_false_iff_ne.mpr hww
      have hsy : isSyncName c.variant "scale_range_type" = true := by
        unfold isSyncName
        rw [hf]
        exact hsync
      refine ⟨w, (mem_serialize c _).mpr ⟨hw, ?_⟩⟩
      rw [hwn, hsy]
      rfl
    · intro n v hfv hmem
      obtain ⟨hmemf, hpred⟩ := (mem_serialize c (n, v)).mp hmem
      have hfc : c.fields.find? (fun q => q.1 = n) = Option.some (n, v) :=
        find?_of_mem_nodup c.fields n v hnodupc hmemf
      have hv : v = Value.none := by
        unfold fieldValue at hfv
        rw [hfc] at hfv
        simpa using hfv
      rw [hv] at hpred
      simp at hpred
  · rfl

/-- Claim C5, witness: the default `ColorScale` configuration is
well-formed and its serialization contains the tag. -/
theorem serialize_contains_tag_omits_unset_witness :
    WF (defaults Variant.colorScale) = true ∧
    (∃ v, ("scale_range_type", v) ∈ serialize (defaults Variant.colorScale)) :=
  ⟨by decide,
   (serialize_contains_tag_omits_unset.1 (defaults Variant.colorScale)
     (by decide)).1⟩

/-- Claim C6: serialization round-trips — for every variant V and every
well-formed parameter set P, serializing `construct(V, P)` and feeding
the mapping back into `construct(V, ·)` reproduces the configuration
field-for-field; in particular the ordered domain
`["low", "mid", "high"]` of an `OrdinalColorScale` survives the
round-trip in declared order. -/
theorem serialize_construct_roundtrip :
    (∀ (V : Variant) (P : List (String × Value)) (c : Config),
      construct V P = Except.ok c → construct V (serialize c) = Except.ok c) ∧
    okAnd (construct Variant.ordinalColorScale
        [("domain", Value.list [Prim.str "low", Prim.str "mid", Prim.str "high"])])
      (fun c =>
        (serLookup (serialize c) "domain"
          == Option.some (Value.list
              [Prim.str "low", Prim.str "mid", Prim.str "high"])) &&
        okAnd (construct Variant.ordinalColorScale (serialize c))
          (fun c2 => c2 == c)) = true := by
  constructor
  · intro V P c hc
    have hstep : ∃ c1, applyParams (defaults V) P = Except.ok c1 ∧
        c = ⟨c1.variant, c1.fields, false⟩ := by
      revert hc
      unfold construct
      cases hap : applyParams (defaults V) P with
      | ok c1 =>
        intro hc
        simp only [Except.ok.injEq] at hc
        exact ⟨c1, rfl, hc.symm⟩
      | error e => intro hc; exact Except.noConfusion hc
    obtain ⟨c1, hap, hceq⟩ := hstep
    have hv1 : c1.variant = V := applyParams_ok_variant P (defaults V) c1 hap
    have hwf1 : WF c1 = true := applyParams_WF P (defaults V) c1 (WF_defaults V) hap
    have hwfc : WF c = true := by rw [hceq]; exact hwf1
    have hvar : c.variant = V := by rw [hceq]; exact hv1
    have hres := reserialize c hwfc (by rw [hceq]) (domain_class_of_WF c hwfc)
    rw [hvar] at hres
    exact hres
  · decide

/-- Claim C6, witness: round-tripping the configuration obtained from
`construct(LinearScale, {min: 0})` reproduces it exactly. -/
theorem serialize_construct_roundtrip_witness :
    construct Variant.linearScale [("min", Value.num 0)] = Except.ok linMinZero ∧
    construct Variant.linearScale (serialize linMinZero) = Except.ok linMinZero :=
  ⟨by rfl,
   serialize_construct_roundtrip.1 Variant.linearScale [("min", Value.num 0)]
     linMinZero (by rfl)⟩

/-- Claim C7: `domain_class` is fixed by the variant — it defaults to
`Float` for every variant except `Date` for DateScale, every well-formed
configuration still holds that fixed default, and the public `update`
operation rejects (with `InvalidParameterKind`, via the `Type` trait's
subclass check) any type value other than the fixed one, so a user
cannot set it independently. -/
theorem domain_class_fixed_per_variant :
    (∀ V, fieldValue (defaults V) "domain_class"
        = Option.some (Value.typ
            (if V = Variant.dateScale then DomainClass.date
             else DomainClass.float))) ∧
    (∀ c : Config, WF c = true →
      fieldValue c "domain_class"
        = fieldValue (defaults c.variant) "domain_class") ∧
    (∀ V k, fieldValue (defaults V) "domain_class"
        ≠ Option.some (Value.typ k) →
      update (defaults V) "domain_class" (Value.typ k)
        = Except.error Err.invalidParameterKind) := by
  refine ⟨?_, ?_, ?_⟩
  · intro V
    cases V <;> rfl
  · exact domain_class_of_WF
  · intro V k
    cases V <;> cases k <;> intro h
    all_goals first | rfl | exact absurd rfl h

/-- Claim C7, witness: a well-formed default configuration has its
`domain_class` at the variant default, and updating `DateScale`'s
`domain_class` to the other class, `Float`, fails with
`InvalidParameterKind`. -/
theorem domain_class_fixed_per_variant_witness :
    (WF (defaults Variant.ordinalScale) = true ∧
     fieldValue (defaults Variant.ordinalScale) "domain_class"
       = fieldValue (defaults (defaults Variant.ordinalScale).variant)
           "domain_class") ∧
    (fieldValue (defaults Variant.dateScale) "domain_class"
       ≠ Option.some (Value.typ DomainClass.float) ∧
     update (defaults Variant.dateScale) "domain_class"
         (Value.typ DomainClass.float)
       = Except.error Err.invalidParameterKind) :=
  ⟨⟨by decide,
    domain_class_fixed_per_variant.2.1 (defaults Variant.ordinalScale) (by decide)⟩,
   ⟨by decide,
    domain_class_fixed_per_variant.2.2 Variant.dateScale DomainClass.float
      (by decide)⟩⟩

/-- Claim C8, counterexample: constructing an `OrdinalScale` with the
duplicate-bearing domain `["a", "b", "a"]` does not fail — the `List`
trait performs no uniqueness validation and the sequence is stored
verbatim. -/
theorem ordinal_duplicate_domain_accepted_cex :
    (construct Variant.ordinalScale
        [("domain", Value.list [Prim.str "a", Prim.str "b", Prim.str "a"])]).map
      (fun c => fieldValue c "domain")
      = Except.ok (Option.some
          (Value.list [Prim.str "a", Prim.str "b", Prim.str "a"])) :=
  rfl

/-- Claim C8, amended: construction of an `OrdinalScale` accepts any
domain list, duplicates included; the sequence is stored and serialized
verbatim, in declared order. -/
theorem ordinal_domain_kept_verbatim :
    ∀ l : List Prim,
      (construct Variant.ordinalScale [("domain", Value.list l)]).map
        (fun c => fieldValue c "domain")
        = Except.ok (Option.some (Value.list l)) ∧
      (construct Variant.ordinalScale [("domain", Value.list l)]).map
        (fun c => serLookup (serialize c) "domain")
        = Except.ok (Option.some (Value.list l)) := by
  intro l
  exact ⟨rfl, rfl⟩

/-- Claim C9: in `DateColorScale`, `min` and `max` accept date values
while `mid` accepts strings; updating `mid` with any string succeeds,
and updating `min` or `max` with any value that is neither a date nor
the unset `None` fails with `InvalidParameterKind`. -/
theorem date_color_scale_min_max_mid_types :
    (∀ s, (update (defaults Variant.dateColorScale) "mid" (Value.str s)).map
        (fun c => fieldValue c "mid") = Except.ok (Option.some (Value.str s))) ∧
    (∀ d, (update (defaults Variant.dateColorScale) "min" (Value.date d)).map
        (fun c => fieldValue c "min") = Except.ok (Option.some (Value.date d))) ∧
    (∀ d, (update (defaults Variant.dateColorScale) "max" (Value.date d)).map
        (fun c => fieldValue c "max") = Except.ok (Option.some (Value.date d))) ∧
    (∀ v, isDateValue v = false → isNoneValue v = false →
      update (defaults Variant.dateColorScale) "min" v
        = Except.error Err.invalidParameterKind ∧
      update (defaults Variant.dateColorScale) "max" v
        = Except.error Err.invalidParameterKind) := by
  refine ⟨fun s => rfl, fun d => rfl, fun d => rfl, ?_⟩
  intro v h1 h2
  cases v with
  | none => simp [isNoneValue] at h2
  | date d => simp [isDateValue] at h1
  | str s => exact ⟨rfl, rfl⟩
  | bool b => exact ⟨rfl, rfl⟩
  | num x => exact ⟨rfl, rfl⟩
  | list l => exact ⟨rfl, rfl⟩
  | typ t => exact ⟨rfl, rfl⟩

/-- Claim C9, witness: a numeric value is neither a date nor `None`, and
updating `DateColorScale.min` with it fails with
`InvalidParameterKind`. -/
theorem date_color_scale_min_max_mid_types_witness :
    isDateValue (Value.num 3) = false ∧ isNoneValue (Value.num 3) = false ∧
    update (defaults Variant.dateColorScale) "min" (Value.num 3)
      = Except.error Err.invalidParameterKind :=
  ⟨by decide, by decide,
   (date_color_scale_min_max_mid_types.2.2.2 (Value.num 3)
     (by decide) (by decide)).1⟩

/-- Claim C10: the ordinal variants never override `domain_class`; a
freshly constructed `OrdinalScale` or `OrdinalColorScale` still holds
the inherited default `Float`. -/
theorem ordinal_variants_inherit_float_domain_class :
    fieldValue (defaults Variant.ordinalScale) "domain_class"
      = Option.some (Value.typ DomainClass.float) ∧
    fieldValue (defaults Variant.ordinalColorScale) "domain_class"
      = Option.some (Value.typ DomainClass.float) :=
  ⟨rfl, rfl⟩

end BqScales
